import Mathlib

/-!
Shallow embedding of the pprint library (Go package pprint, file pprint.go).

The library renders tabular data organized as a tree of nodes.  Every node may
carry a row of values and a reference to a shared, mutable column schema.  Row
construction updates the widths of non fixed columns of the shared schema; the
printing engine walks the tree in pre order and renders each row using the
current column widths.

Pointer-shared mutable objects are modelled with an explicit heap: schemas and
node objects live in lists and are addressed by their index, so Go reference
equality becomes index equality and an in-place width update is a store into
the schema list.  Go interface values are modelled by the tagged type `Val`;
the runtime type of a value (reflect.TypeOf) is its tag.  Machine integers are
modelled by `Int`/`Nat` (no width in the source ever nears an overflow, widths
are string lengths).  Fallible operations return `Except`.

Go `sort.Stable` runs a plain insertion sort for slices of at most 20 elements
(its internal block size); the sorting theorems below carry explicit length
bounds that keep every statement inside this exactly-modelled regime.
-/

namespace Pprint

/-- One column of a schema: current width, fixed-width flag (pad.fixed) and
left-alignment flag (pad.right) as in the Go struct Column. -/
structure Column where
  width : Nat
  fixed : Bool
  right : Bool
deriving Repr, DecidableEq, Inhabited

/-- NewColumn with no options: zero width, auto (not fixed), right aligned. -/
def newColumn : Column := ⟨0, false, false⟩

/-- Option WithWidth: clamps a negative requested width to 0 and marks the
column fixed, as in the Go source. -/
def withWidth (w : Int) (c : Column) : Column :=
  { c with width := w.toNat, fixed := true }

/-- Option WithLeftAlignment: sets pad.right. -/
def withLeftAlignment (c : Column) : Column :=
  { c with right := true }

/-- Column.String of the Go source: a printf style descriptor. -/
def Column.string (c : Column) : String :=
  if c.right then "%-" ++ toString c.width ++ "s" else "%" ++ toString c.width ++ "s"

/-- ColumnSchema: the ordered columns and the stored column count. -/
structure ColumnSchema where
  cols : List Column
  count : Nat
deriving Repr, DecidableEq, Inhabited

/-- NewSchema from explicit columns. -/
def newSchema (c : List Column) : ColumnSchema := ⟨c, c.length⟩

/-- NewSchemaFrom: produces size-many default (auto width, right aligned)
columns; the Go function receives the field slice and uses only its length. -/
def newSchemaFrom (size : Nat) : ColumnSchema :=
  ⟨List.replicate size newColumn, size⟩

/-- A Go interface value, as a tagged variant.  Custom Stringer values and the
default %v fallback are both covered by vother, which carries the runtime type
as a numeric tag together with the display string; time.Time is abstracted as
an ordinal whose Before relation is the order on Nat. -/
inductive Val where
  | vstr (s : String)
  | vbytes (s : String)
  | vuint (n : Nat)
  | vint (n : Int)
  | vtime (t : Nat)
  | vnil
  | vother (tag : Nat) (disp : String)
deriving Repr, DecidableEq, Inhabited

/-- The runtime type of a value (reflect.TypeOf); TypeOf nil is nil, so two nil
values share a type. -/
inductive VType where
  | tstr
  | tbytes
  | tuint
  | tint
  | ttime
  | tnil
  | tother (tag : Nat)
deriving Repr, DecidableEq

/-- Tag extraction modelling reflect.TypeOf. -/
def typeOf : Val → VType
  | .vstr _ => .tstr
  | .vbytes _ => .tbytes
  | .vuint _ => .tuint
  | .vint _ => .tint
  | .vtime _ => .ttime
  | .vnil => .tnil
  | .vother tag _ => .tother tag

/-- MustToString of the Go source: total conversion of a value to a string.
Stringer values and the %v fallback carry their display string in the model;
integers print in base 10 (Lean toString on Int matches strconv.FormatInt),
nil becomes the empty string. -/
def mustToString : Val → String
  | .vstr s => s
  | .vbytes s => s
  | .vuint n => toString n
  | .vint n => toString n
  | .vtime t => toString t
  | .vnil => ""
  | .vother _ d => d

/-- Go len() of a string counts bytes. -/
def goLenN (s : String) : Nat := s.utf8ByteSize

/-- resizeSlice of the Go source: pad with nil values or truncate so the list
has exactly the requested length. -/
def resizeSlice (s : List Val) (become : Nat) : List Val :=
  if s.length = become then s
  else if s.length < become then s ++ List.replicate (become - s.length) Val.vnil
  else s.take become

/-- The width-update step of Row.prepare on one column: a fixed column is
untouched, otherwise the width is raised to the byte length of the rendered
field when that is larger. -/
def updCol (c : Column) (s : String) : Column :=
  if c.fixed then c
  else if goLenN s > c.width then { c with width := goLenN s } else c

/-- The schema mutation performed by Row.prepare for one row of data: the
fields are resized to the column count, converted with mustToString, and each
non fixed column width is raised to the observed length. -/
def prepareSchema (sch : ColumnSchema) (data : List Val) : ColumnSchema :=
  { sch with cols := sch.cols.zipWith updCol ((resizeSlice data sch.count).map mustToString) }

/-- The byte length observed for column i when a row with the given data is
prepared against a schema with cnt columns. -/
def obsLen (cnt : Nat) (data : List Val) (i : Nat) : Nat :=
  goLenN (mustToString ((resizeSlice data cnt).getD i .vnil))

/-- Accumulating maximum of the observed lengths for one column over a list of
pushed rows. -/
def obsFold (cnt i : Nat) (rows : List (List Val)) (acc : Nat) : Nat :=
  rows.foldl (fun a d => max a (obsLen cnt d i)) acc

/-- A Row: schema reference (heap index), raw fields and the converted
strings.  The schema reference is optional as in the Go struct; every row
produced by NewRow carries one. -/
structure Row where
  schema : Option Nat
  fields : List Val
  fmtArgs : List String
deriving Repr, DecidableEq, Inhabited

/-- A tree node: parent link, ordered children, optional schema reference and
optional row, all as in the Go struct Node (children model the embedded nodes
slice). -/
structure NodeObj where
  parent : Option Nat
  children : List Nat
  schema : Option Nat
  row : Option Row
deriving Repr, DecidableEq, Inhabited

/-- The heap: schemas and node objects addressed by index, making Go pointer
identity explicit. -/
structure Heap where
  schemas : List ColumnSchema
  objs : List NodeObj
deriving Repr, DecidableEq, Inhabited

def Heap.schemaAt (h : Heap) (i : Nat) : ColumnSchema := h.schemas.getD i default

def Heap.node (h : Heap) (i : Nat) : NodeObj := h.objs.getD i default

def Heap.setSchema (h : Heap) (i : Nat) (s : ColumnSchema) : Heap :=
  { h with schemas := h.schemas.set i s }

def Heap.setNode (h : Heap) (i : Nat) (n : NodeObj) : Heap :=
  { h with objs := h.objs.set i n }

def Heap.allocSchema (h : Heap) (s : ColumnSchema) : Heap × Nat :=
  ({ h with schemas := h.schemas ++ [s] }, h.schemas.length)

def Heap.allocNode (h : Heap) (n : NodeObj) : Heap × Nat :=
  ({ h with objs := h.objs ++ [n] }, h.objs.length)

/-- The shared tail of Row.prepare once a schema reference exists: resize the
fields, convert them, and store the width updates into the shared schema. -/
def mkRowOn (h : Heap) (sid : Nat) (data : List Val) : Heap × Row :=
  let sch := h.schemaAt sid
  let fields := resizeSlice data sch.count
  let fmtArgs := fields.map mustToString
  (h.setSchema sid (prepareSchema sch data), ⟨some sid, fields, fmtArgs⟩)

/-- NewRow of the Go source: if no schema is supplied Row.prepare derives one
from the field count (a fresh shared object), otherwise the fields are resized
to the existing schema; in both cases the schema widths are updated. -/
def newRowH (h : Heap) (os : Option Nat) (data : List Val) : Heap × Row :=
  match os with
  | none =>
    let alloc := h.allocSchema (newSchemaFrom data.length)
    mkRowOn alloc.1 alloc.2 data
  | some sid => mkRowOn h sid data

/-- NewNode with an optional WithRow option: the node schema is set to the row
schema when a row is present. -/
def newNodeH (h : Heap) (row : Option Row) : Heap × Nat :=
  h.allocNode ⟨none, [], (match row with | some r => r.schema | none => none), row⟩

/-- Errors returned by PushNode. -/
inductive PushErr where
  | nilIncoming
  | emptyNode
  | bothNoSchema
  | schemaMismatch
deriving Repr, DecidableEq

/-- The unconditional tail of PushNode: set the parent link of the incoming
node to the receiver and append the incoming node to the receiver children. -/
def pushFinish (h : Heap) (rid iid : Nat) : Heap :=
  let h₂ := h.setNode iid { h.node iid with parent := some rid }
  h₂.setNode rid { h₂.node rid with children := (h₂.node rid).children ++ [iid] }

/-- PushNode of pprint.go (the strict revision under src): a nil incoming node
and an incoming node without a row are rejected; a row without a schema is
adopted under the receiver schema when the receiver has one; a receiver
without a schema inherits the row schema; otherwise the schema references must
be identical.  On acceptance the incoming node gets the receiver as parent and
is appended to the receiver children, and the incoming reference is returned. -/
def pushNodeH (h : Heap) (rid : Nat) (incoming : Option Nat) : Except PushErr (Heap × Nat) :=
  match incoming with
  | none => .error .nilIncoming
  | some iid =>
    match (h.node iid).row with
    | none => .error .emptyNode
    | some r =>
      let step : Except PushErr Heap :=
        match r.schema with
        | none =>
          match (h.node rid).schema with
          | none => .error .bothNoSchema
          | some _ => .ok (h.setNode iid { h.node iid with schema := (h.node rid).schema })
        | some rs =>
          match (h.node rid).schema with
          | none => .ok (h.setNode rid { h.node rid with schema := some rs })
          | some s => if s = rs then .ok h else .error .schemaMismatch
      match step with
      | .error e => .error e
      | .ok h₁ => .ok (pushFinish h₁ rid iid, iid)

/-- Push of the Go source: build a row against the node schema (NewRow runs,
and mutates widths, before the merge check), wrap it in a new node and push
that node.  The heap is returned even on a merge error because the row and
node allocations already happened. -/
def pushH (h : Heap) (nid : Nat) (data : List Val) : Heap × Except PushErr Nat :=
  let hr := newRowH h ((h.node nid).schema) data
  let hn := newNodeH hr.1 (some hr.2)
  match pushNodeH hn.1 nid (some hn.2) with
  | .ok hret => (hret.1, .ok hret.2)
  | .error e => (hn.1, .error e)

/-- Scenario helper: perform a push that is known to succeed and return the
new heap together with the reference of the created child. -/
def pushOk (h : Heap) (nid : Nat) (data : List Val) : Heap × Nat :=
  match pushH h nid data with
  | (h', .ok cid) => (h', cid)
  | (h', .error _) => (h', 0)

/-- Comparator for string cells (Go a.(string) < b.(string)); Lean string
order is codepoint lexicographic, which coincides with the byte order Go uses
because UTF-8 preserves codepoint order. -/
def cmpStrFn : Val → Val → Bool
  | .vstr a, .vstr b => decide (a < b)
  | _, _ => false

/-- Comparator for int cells. -/
def cmpIntFn : Val → Val → Bool
  | .vint a, .vint b => decide (a < b)
  | _, _ => false

/-- Comparator for time.Time cells (Before on the ordinal). -/
def cmpTimeFn : Val → Val → Bool
  | .vtime a, .vtime b => decide (a < b)
  | _, _ => false

/-- MatchCmp of the Go source: recognizes string, int and time.Time values. -/
def matchCmp : Val → Option (Val → Val → Bool)
  | .vstr _ => some cmpStrFn
  | .vint _ => some cmpIntFn
  | .vtime _ => some cmpTimeFn
  | _ => none

/-- holdsIdenticalType of the Go source: adjacent cells must share the exact
runtime type. -/
def sameTypes : List Val → Bool
  | a :: b :: rest => typeOf a = typeOf b && sameTypes (b :: rest)
  | _ => true

/-- matchComparator: first matcher in the chain returning a comparator wins. -/
def matchComparator (chain : List (Val → Option (Val → Val → Bool))) (a : Val) :
    Option (Val → Val → Bool) :=
  chain.findSome? (fun m => m a)

/-- One step of the Go insertion sort: the new element moves left past every
immediately preceding element e with p x e true (the inner swap loop). -/
def insGo (p : α → α → Bool) (x : α) (l : List α) : List α :=
  let r := l.reverse
  (r.dropWhile (fun e => p x e)).reverse ++ x :: (r.takeWhile (fun e => p x e)).reverse

/-- Go insertionSort on a list: fold the elements into the sorted prefix.
sort.Stable equals this for slices of at most 20 elements (its block size). -/
def insertionSortGo (p : α → α → Bool) (l : List α) : List α :=
  l.foldl (fun acc x => insGo p x acc) []

/-- nodes.cell of the Go source: the raw field of the row of a child at the
given column. -/
def cellH (h : Heap) (col : Nat) (cref : Nat) : Val :=
  ((h.node cref).row.getD default).fields.getD col .vnil

/-- The first cell of a column across a list of children (createSortableOn
resolves the comparator against cell 0). -/
def cell0 (h : Heap) (c : Nat) (children : List Nat) : Val :=
  (children.map (cellH h c)).getD 0 .vnil

/-- Errors returned by Sort / createSortableOn. -/
inductive SortErr where
  | noSuchField
  | nonIdenticalType
  | noComparator
deriving Repr, DecidableEq

/-- Sort of the Go source: reject when the schema is absent or the column is
out of range; no-op with fewer than two children; otherwise createSortableOn
checks that the cells share one runtime type and that a matcher (caller
supplied matchers first, then MatchCmp) recognizes the first cell, and a
stable sort runs with the comparator, inverted pointwise when descending. -/
def sortH (h : Heap) (nid : Nat) (col : Int) (desc : Bool)
    (ms : List (Val → Option (Val → Val → Bool))) : Except SortErr Heap :=
  let n := h.node nid
  match n.schema with
  | none => .error .noSuchField
  | some sid =>
    if col < 0 ∨ (h.schemaAt sid).count ≤ col then .error .noSuchField
    else if n.children.length < 2 then .ok h
    else
      let c := col.toNat
      let cells := n.children.map (cellH h c)
      if sameTypes cells = false then .error .nonIdenticalType
      else
        match matchComparator (ms ++ [matchCmp]) (cell0 h c n.children) with
        | none => .error .noComparator
        | some cmp =>
          let p : Nat → Nat → Bool :=
            if desc then fun i j => !(cmp (cellH h c i) (cellH h c j))
            else fun i j => cmp (cellH h c i) (cellH h c j)
          .ok (h.setNode nid { n with children := insertionSortGo p n.children })

/-- A run of spaces. -/
def spaces (n : Nat) : String := String.mk (List.replicate n ' ')

/-- Application of one %Ws or %-Ws descriptor by fmt.Fprintf: pad with spaces
to the column width (fmt counts runes for padding), never truncate. -/
def padCell (c : Column) (s : String) : String :=
  if c.right then s ++ spaces (c.width - s.length)
  else spaces (c.width - s.length) ++ s

/-- RunRow of the printing engine: a nil row prints nothing; a row whose
schema has no columns prints nothing; otherwise each stored argument is padded
per its column descriptor, the cells are joined with the separator and the
line terminator is appended.  A row without a schema reference cannot arise
from NewRow and renders as empty here. -/
def runRowH (h : Heap) (sep lf : String) (r : Option Row) : String :=
  match r with
  | none => ""
  | some row =>
    let cols := match row.schema with
      | some sid => (h.schemaAt sid).cols
      | none => []
    if cols.isEmpty then ""
    else String.intercalate sep (List.zipWith padCell cols row.fmtArgs) ++ lf

/-- Walk of the Go source: pre-order traversal of the descendants (each child
followed by its own subtree), fuel bounded because the source performs no
cycle detection. -/
def walkIds : Nat → Heap → Nat → List Nat
  | 0, _, _ => []
  | fuel + 1, h, nid =>
    ((h.node nid).children.map (fun c => c :: walkIds fuel h c)).flatten

/-- RunNode of the printing engine: a non root node renders its own row first,
then every descendant row in walk order. -/
def runNodeH (fuel : Nat) (h : Heap) (sep lf : String) (nid : Nat) : String :=
  (if (h.node nid).parent ≠ none then runRowH h sep lf (h.node nid).row else "")
    ++ String.join ((walkIds fuel h nid).map (fun c => runRowH h sep lf (h.node c).row))

/-! Concrete scenarios used by the counterexamples and witnesses below. -/

/-- An empty heap with one fresh root node (NewNode with no options). -/
def rootHeap : Heap := (newNodeH ⟨[], []⟩ none).1

/-- C5 scenario: rows (1, "ab") and (22, "c") pushed under one root. -/
def heapC5 : Heap :=
  (pushOk (pushOk rootHeap 0 [.vint 1, .vstr "ab"]).1 0 [.vint 22, .vstr "c"]).1

/-- C9 scenario: rows a, b, c under the root, then d, e under the node of b
(which received reference 2). -/
def heapC9 : Heap :=
  (pushOk (pushOk (pushOk (pushOk (pushOk rootHeap
    0 [.vstr "a"]).1 0 [.vstr "b"]).1 0 [.vstr "c"]).1 2 [.vstr "d"]).1 2 [.vstr "e"]).1

/-- C7 scenario: two children with the same key 712 in column 0. -/
def heapC7 : Heap :=
  (pushOk (pushOk rootHeap 0 [.vint 712, .vstr "a"]).1 0 [.vint 712, .vstr "b"]).1

/-- C8 scenario: child rows (5, "b"), (3, "a"), (5, "a") in push order. -/
def heapC8 : Heap :=
  (pushOk (pushOk (pushOk rootHeap
    0 [.vint 5, .vstr "b"]).1 0 [.vint 3, .vstr "a"]).1 0 [.vint 5, .vstr "a"]).1

/-- C2 counterexample heap: node 0 carries a schema (reference 0), node 1
carries neither row nor schema. -/
def heapC2 : Heap :=
  ⟨[newSchemaFrom 1], [⟨none, [], some 0, none⟩, ⟨none, [], none, none⟩]⟩

/-- C1 witness heap: node 0 carries schema reference 0; nodes 1 and 2 carry
rows, node 1 under schema reference 0 and node 2 under schema reference 1. -/
def heapC1 : Heap :=
  ⟨[newSchemaFrom 1, newSchemaFrom 1],
   [⟨none, [], some 0, none⟩,
    ⟨none, [], some 0, some ⟨some 0, [.vnil], [""]⟩⟩,
    ⟨none, [], some 1, some ⟨some 1, [.vnil], [""]⟩⟩]⟩

/-! Helper lemmas and the claim theorems. -/

theorem getD_append_left {α} (l l' : List α) (d : α) (i : Nat) (h : i < l.length) :
    (l ++ l').getD i d = l.getD i d := by
  simp [List.getD, List.getElem?_append_left h]

theorem getD_append_len {α} (l : List α) (x : α) (d : α) :
    (l ++ [x]).getD l.length d = x := by
  simp [List.getD, List.getElem?_append_right (Nat.le_refl _)]

theorem getD_set_self {α} (l : List α) (i : Nat) (x d : α) (h : i < l.length) :
    (l.set i x).getD i d = x := by
  simp [List.getD, List.getElem?_set_self, h]

theorem getD_set_ne {α} (l : List α) (i j : Nat) (x d : α) (h : i ≠ j) :
    (l.set i x).getD j d = l.getD j d := by
  simp [List.getD, List.getElem?_set_ne h]

theorem getD_replicate {α} (n : Nat) (a d : α) (i : Nat) (h : i < n) :
    (List.replicate n a).getD i d = a := by
  simp [List.getD, List.getElem?_replicate, h]

theorem getD_zipWith {α β γ} (f : α → β → γ) (l1 : List α) (l2 : List β) (i : Nat)
    (d : γ) (da : α) (db : β) (h1 : i < l1.length) (h2 : i < l2.length) :
    (List.zipWith f l1 l2).getD i d = f (l1.getD i da) (l2.getD i db) := by
  have hz : i < (List.zipWith f l1 l2).length := by
    simp only [List.length_zipWith]; omega
  rw [List.getD_eq_getElem _ _ hz, List.getD_eq_getElem _ _ h1, List.getD_eq_getElem _ _ h2]
  exact List.getElem_zipWith ..

theorem getD_map {α β} (l : List α) (f : α → β) (i : Nat) (d : β) (d' : α) (h : i < l.length) :
    (l.map f).getD i d = f (l.getD i d') := by
  have hm : i < (l.map f).length := by simpa using h
  rw [List.getD_eq_getElem _ _ hm, List.getD_eq_getElem _ _ h]
  simp

theorem resizeSlice_length (s : List Val) (n : Nat) : (resizeSlice s n).length = n := by
  unfold resizeSlice
  split
  · omega
  · split
    · simp; omega
    · simp; omega

theorem getD_resize (s : List Val) (n i : Nat) (h : i < n) :
    (resizeSlice s n).getD i .vnil = if i < s.length then s.getD i .vnil else .vnil := by
  unfold resizeSlice
  split
  · rename_i heq
    have : i < s.length := by omega
    simp [this]
  · split
    · rename_i hne hlt
      by_cases hi : i < s.length
      · rw [getD_append_left _ _ _ _ hi]; simp [hi]
      · have h1 : s.length ≤ i := by omega
        have h2 : i - s.length < n - s.length := by omega
        simp only [List.getD, List.get?_eq_getElem?]
        rw [List.getElem?_append_right h1]
        simp [List.getElem?_replicate, h2, hi]
    · rename_i hne hge
      have hs : i < s.length := by omega
      simp only [List.getD, List.get?_eq_getElem?, List.getElem?_take]
      simp [h, hs]

theorem node_set_self (h : Heap) (i : Nat) (x : NodeObj) (hi : i < h.objs.length) :
    (h.setNode i x).node i = x := by
  simp [Heap.setNode, Heap.node, List.getD, List.getElem?_set_self, hi]

theorem node_set_ne (h : Heap) (i j : Nat) (x : NodeObj) (hij : i ≠ j) :
    (h.setNode i x).node j = h.node j := by
  simp [Heap.setNode, Heap.node, List.getD, List.getElem?_set_ne hij]

theorem setNode_objs_length (h : Heap) (i : Nat) (x : NodeObj) :
    (h.setNode i x).objs.length = h.objs.length := by
  simp [Heap.setNode]

theorem pushFinish_parent (h : Heap) (rid iid : Nat) (hiid : iid < h.objs.length) :
    ((pushFinish h rid iid).node iid).parent = some rid := by
  unfold pushFinish
  by_cases hij : rid = iid
  · subst hij
    rw [node_set_self _ _ _ (by rw [setNode_objs_length]; exact hiid)]
    rw [node_set_self _ _ _ hiid]
  · rw [node_set_ne _ rid iid _ hij, node_set_self _ _ _ hiid]

theorem pushFinish_children (h : Heap) (rid iid : Nat) (hrid : rid < h.objs.length) :
    ((pushFinish h rid iid).node rid).children = (h.node rid).children ++ [iid] := by
  unfold pushFinish
  by_cases hij : rid = iid
  · subst hij
    rw [node_set_self _ _ _ (by rw [setNode_objs_length]; exact hrid)]
    rw [node_set_self _ _ _ hrid]
  · rw [node_set_self _ _ _ (by rw [setNode_objs_length]; exact hrid)]
    rw [node_set_ne _ iid rid _ (fun he => hij he.symm)]


/-- C4: pushing k data fields into an n-column schema yields exactly n
formatted fields; the first min(k, n) are the converted inputs in order and
the rest are empty strings. -/
theorem c4_resize_law (h : Heap) (sid : Nat) (data : List Val) :
    ((newRowH h (some sid) data).2.fmtArgs.length = (h.schemaAt sid).count) ∧
    (∀ i, i < min data.length (h.schemaAt sid).count →
      (newRowH h (some sid) data).2.fmtArgs.getD i "" = mustToString (data.getD i .vnil)) ∧
    (∀ i, data.length ≤ i → i < (h.schemaAt sid).count →
      (newRowH h (some sid) data).2.fmtArgs.getD i "" = "") := by
  refine ⟨?_, ?_, ?_⟩
  · simp [newRowH, mkRowOn, resizeSlice_length]
  · intro i hi
    have hin : i < (h.schemaAt sid).count := by omega
    have hk : i < data.length := by omega
    have hr : i < (resizeSlice data (h.schemaAt sid).count).length := by
      rw [resizeSlice_length]; omega
    simp only [newRowH, mkRowOn]
    rw [getD_map _ _ _ _ .vnil hr, getD_resize _ _ _ hin]
    simp [hk]
  · intro i hk hin
    have hr : i < (resizeSlice data (h.schemaAt sid).count).length := by
      rw [resizeSlice_length]; omega
    simp only [newRowH, mkRowOn]
    rw [getD_map _ _ _ _ .vnil hr, getD_resize _ _ _ hin]
    have : ¬ i < data.length := by omega
    simp [this, mustToString]

theorem c4_witness :
    (newRowH heapC2 (some 0) [.vstr "xy"]).2.fmtArgs.getD 0 "" = "xy" :=
  (c4_resize_law heapC2 0 [.vstr "xy"]).2.1 0 (by decide)

/-- C10: a node created from a row gets the schema reference of that row, so a
freshly created row-carrying node has node schema equal to its row schema. -/
theorem c10_newNode_schema (h : Heap) (r : Row) :
    ((newNodeH h (some r)).1.node (newNodeH h (some r)).2).schema = r.schema ∧
    ((newNodeH h (some r)).1.node (newNodeH h (some r)).2).row = some r := by
  constructor <;> simp [newNodeH, Heap.allocNode, Heap.node, getD_append_len]

/-- C2 (amended): PushNode rejects any incoming node that carries no row with
an empty-node error, also when the receiver has a schema; no empty row is
allocated for it (the source implements the strict merge variant). -/
theorem c2_strict_empty_reject (h : Heap) (rid iid : Nat)
    (hrow : (h.node iid).row = none) :
    pushNodeH h rid (some iid) = .error .emptyNode := by
  simp [pushNodeH, hrow]

theorem c2_witness :
    ((heapC2.node 1).row = none) ∧ pushNodeH heapC2 0 (some 1) = .error .emptyNode :=
  ⟨rfl, c2_strict_empty_reject heapC2 0 1 rfl⟩

/-- C2 counterexample: receiver node 0 has a schema, incoming node 1 carries
no row, and PushNode rejects it instead of allocating an empty row under the
receiver schema and accepting it. -/
theorem c2_counterexample :
    (heapC2.node 0).schema = some 0 ∧ (heapC2.node 1).row = none ∧
    pushNodeH heapC2 0 (some 1) = .error .emptyNode :=
  ⟨rfl, rfl, rfl⟩

/-- C1: with a receiver that has a schema and an incoming node whose row
carries a schema reference, PushNode succeeds exactly when the references are
identical; a different reference yields the schema-mismatch error, and on
success the incoming node gets the receiver as parent, is appended at the end
of the receiver children, and is the returned node. -/
theorem c1_merge_reference_law (h : Heap) (rid iid s rs : Nat) (r : Row)
    (hrid : rid < h.objs.length) (hiid : iid < h.objs.length)
    (hR : (h.node rid).schema = some s)
    (hI : (h.node iid).row = some r)
    (hrs : r.schema = some rs) :
    ((∃ h', pushNodeH h rid (some iid) = .ok (h', iid)) ↔ rs = s) ∧
    (rs ≠ s → pushNodeH h rid (some iid) = .error .schemaMismatch) ∧
    (rs = s → ∃ h',
      pushNodeH h rid (some iid) = .ok (h', iid) ∧
      (h'.node iid).parent = some rid ∧
      (h'.node rid).children = (h.node rid).children ++ [iid]) := by
  by_cases hsr : s = rs
  · subst hsr
    have hstep : pushNodeH h rid (some iid) = .ok (pushFinish h rid iid, iid) := by
      simp [pushNodeH, hI, hrs, hR]
    exact ⟨⟨fun _ => rfl, fun _ => ⟨_, hstep⟩⟩, fun hne => absurd rfl hne,
      fun _ => ⟨_, hstep, pushFinish_parent h rid iid hiid, pushFinish_children h rid iid hrid⟩⟩
  · have herr : pushNodeH h rid (some iid) = .error .schemaMismatch := by
      simp [pushNodeH, hI, hrs, hR, hsr]
    refine ⟨⟨fun hex => ?_, fun he => absurd he.symm hsr⟩, fun _ => herr,
      fun he => absurd he.symm hsr⟩
    obtain ⟨h', hok⟩ := hex
    rw [herr] at hok
    exact absurd hok (by simp)

theorem c1_witness :
    (∃ h', pushNodeH heapC1 0 (some 1) = .ok (h', 1) ∧
      (h'.node 1).parent = some 0 ∧
      (h'.node 0).children = (heapC1.node 0).children ++ [1]) ∧
    pushNodeH heapC1 0 (some 2) = .error .schemaMismatch :=
  ⟨(c1_merge_reference_law heapC1 0 1 0 0 ⟨some 0, [.vnil], [""]⟩
      (by decide) (by decide) rfl rfl rfl).2.2 rfl,
   (c1_merge_reference_law heapC1 0 2 0 1 ⟨some 1, [.vnil], [""]⟩
      (by decide) (by decide) rfl rfl rfl).2.1 (by decide)⟩


theorem updCol_fixed (c : Column) (s : String) : (updCol c s).fixed = c.fixed := by
  unfold updCol
  split
  · rfl
  · split <;> rfl

theorem updCol_of_fixed (c : Column) (s : String) (hc : c.fixed = true) : updCol c s = c := by
  simp [updCol, hc]

theorem updCol_width (c : Column) (s : String) (hc : c.fixed = false) :
    (updCol c s).width = max c.width (goLenN s) := by
  simp only [updCol, hc, Bool.false_eq_true, if_false]
  split <;> simp <;> omega

theorem prepareSchema_count (sch : ColumnSchema) (data : List Val) :
    (prepareSchema sch data).count = sch.count := rfl

theorem prepareSchema_wf (sch : ColumnSchema) (data : List Val)
    (wf : sch.cols.length = sch.count) :
    (prepareSchema sch data).cols.length = (prepareSchema sch data).count := by
  simp [prepareSchema, List.length_zipWith, resizeSlice_length, wf]

theorem prepareSchema_col (sch : ColumnSchema) (data : List Val) (i : Nat)
    (wf : sch.cols.length = sch.count) (hi : i < sch.count) :
    (prepareSchema sch data).cols.getD i default =
      updCol (sch.cols.getD i default)
        (mustToString ((resizeSlice data sch.count).getD i .vnil)) := by
  have h1 : i < sch.cols.length := by omega
  have h2 : i < ((resizeSlice data sch.count).map mustToString).length := by
    simp [resizeSlice_length]; omega
  have h3 : i < (resizeSlice data sch.count).length := by rw [resizeSlice_length]; omega
  unfold prepareSchema
  simp only
  rw [getD_zipWith updCol _ _ i default default "" h1 h2, getD_map _ _ _ _ .vnil h3]

theorem obsFold_max (cnt i : Nat) (rows : List (List Val)) (a b : Nat) :
    obsFold cnt i rows (max a b) = max a (obsFold cnt i rows b) := by
  induction rows generalizing b with
  | nil => rfl
  | cons d t ih =>
    show obsFold cnt i t (max (max a b) (obsLen cnt d i)) = _
    rw [Nat.max_assoc, ih]
    rfl

theorem foldl_prepare (rows : List (List Val)) : ∀ (sch : ColumnSchema) (i : Nat),
    sch.cols.length = sch.count → i < sch.count →
    ((rows.foldl prepareSchema sch).count = sch.count ∧
     (rows.foldl prepareSchema sch).cols.length = sch.count ∧
     ((sch.cols.getD i default).fixed = true →
        (rows.foldl prepareSchema sch).cols.getD i default = sch.cols.getD i default) ∧
     ((sch.cols.getD i default).fixed = false →
        ((rows.foldl prepareSchema sch).cols.getD i default).fixed = false ∧
        ((rows.foldl prepareSchema sch).cols.getD i default).width =
          max (sch.cols.getD i default).width (obsFold sch.count i rows 0))) := by
  induction rows with
  | nil =>
    intro sch i wf hi
    exact ⟨rfl, wf, fun _ => rfl, fun hf => ⟨hf, by simp [obsFold]⟩⟩
  | cons d t ih =>
    intro sch i wf hi
    have wf' : (prepareSchema sch d).cols.length = (prepareSchema sch d).count :=
      prepareSchema_wf sch d wf
    have hi' : i < (prepareSchema sch d).count := by rw [prepareSchema_count]; omega
    obtain ⟨hcnt, hlen, hfix, hauto⟩ := ih (prepareSchema sch d) i wf' hi'
    have hcol := prepareSchema_col sch d i wf hi
    refine ⟨by rw [List.foldl_cons, hcnt, prepareSchema_count],
            by rw [List.foldl_cons, hlen, prepareSchema_count],
            ?_, ?_⟩
    · intro hf
      rw [List.foldl_cons, hfix (by rw [hcol, updCol_fixed]; exact hf), hcol,
        updCol_of_fixed _ _ hf]
    · intro hf
      have hfix' : ((prepareSchema sch d).cols.getD i default).fixed = false := by
        rw [hcol, updCol_fixed]; exact hf
      obtain ⟨hff, hww⟩ := hauto hfix'
      refine ⟨by rw [List.foldl_cons]; exact hff, ?_⟩
      rw [List.foldl_cons, hww, hcol, updCol_width _ _ hf, prepareSchema_count]
      show max (max _ (obsLen sch.count d i)) _ = _
      rw [Nat.max_assoc]
      congr 1
      have h1 := obsFold_max sch.count i t (obsLen sch.count d i) 0
      rw [Nat.max_zero] at h1
      have h2 : obsFold sch.count i (d :: t) 0 = obsFold sch.count i t (obsLen sch.count d i) := by
        show obsFold sch.count i t (max 0 (obsLen sch.count d i)) = _
        rw [Nat.zero_max]
      rw [h2]
      exact h1.symm

/-- C3: along any sequence of row constructions against one shared schema, a
non fixed column width ends at the maximum of its initial width and every
observed rendered length (hence the maximum observed length when the column
started at width 0, as auto columns do), it never decreases, and a fixed
column is never modified; newRowH stores exactly this prepareSchema update
into the shared schema slot of the heap. -/
theorem c3_auto_width (sch : ColumnSchema) (rows : List (List Val)) (i : Nat)
    (wf : sch.cols.length = sch.count) (hi : i < sch.count) :
    (((sch.cols.getD i default).fixed = false →
       ((rows.foldl prepareSchema sch).cols.getD i default).width =
         max (sch.cols.getD i default).width (obsFold sch.count i rows 0)) ∧
     ((sch.cols.getD i default).fixed = false → (sch.cols.getD i default).width = 0 →
       ((rows.foldl prepareSchema sch).cols.getD i default).width =
         obsFold sch.count i rows 0) ∧
     ((sch.cols.getD i default).fixed = true →
       (rows.foldl prepareSchema sch).cols.getD i default = sch.cols.getD i default) ∧
     (∀ (h : Heap) (sid : Nat) (d : List Val),
       (newRowH h (some sid) d).1 = h.setSchema sid (prepareSchema (h.schemaAt sid) d))) := by
  obtain ⟨hcnt, hlen, hfix, hauto⟩ := foldl_prepare rows sch i wf hi
  refine ⟨fun hf => (hauto hf).2, fun hf h0 => ?_, hfix, fun _ _ _ => rfl⟩
  rw [(hauto hf).2, h0]
  simp

theorem c3_witness :
    (([[Val.vint 1, Val.vstr "ab"], [Val.vint 22, Val.vstr "c"]].foldl
        prepareSchema (newSchemaFrom 2)).cols.getD 0 default).width =
      obsFold (newSchemaFrom 2).count 0
        [[Val.vint 1, Val.vstr "ab"], [Val.vint 22, Val.vstr "c"]] 0 :=
  (c3_auto_width (newSchemaFrom 2)
    [[Val.vint 1, Val.vstr "ab"], [Val.vint 22, Val.vstr "c"]] 0
    (by decide) (by decide)).2.1 rfl rfl

/-- C6: Sort fails exactly when the schema is absent, the column index is out
of range, or there are at least two children whose cells do not share one
runtime type or whose type no matcher in the chain recognizes; with a valid
column and fewer than two children it succeeds and the heap (so the children
order) is unchanged. -/
theorem c6_sort_error_conditions (h : Heap) (nid : Nat) (col : Int) (desc : Bool)
    (ms : List (Val → Option (Val → Val → Bool))) :
    ((∃ e, sortH h nid col desc ms = .error e) ↔
      ((h.node nid).schema = none ∨
       ∃ sid, (h.node nid).schema = some sid ∧
         (col < 0 ∨ ((h.schemaAt sid).count : Int) ≤ col ∨
          (2 ≤ (h.node nid).children.length ∧
            (sameTypes ((h.node nid).children.map (cellH h col.toNat)) = false ∨
             matchComparator (ms ++ [matchCmp])
               (cell0 h col.toNat (h.node nid).children) = none))))) ∧
    (∀ sid, (h.node nid).schema = some sid → ¬ col < 0 →
      col < ((h.schemaAt sid).count : Int) →
      (h.node nid).children.length < 2 → sortH h nid col desc ms = .ok h) := by
  constructor
  · cases hs : (h.node nid).schema with
    | none => simp [sortH, hs]
    | some sid =>
      by_cases hc : col < 0 ∨ ((h.schemaAt sid).count : Int) ≤ col
      · simp [sortH, hs, hc]
        rcases hc with hc | hc
        · exact Or.inl hc
        · exact Or.inr (Or.inl hc)
      · have hc1 : ¬ col < 0 := by omega
        have hc2 : ¬ ((h.schemaAt sid).count : Int) ≤ col := by omega
        by_cases hl : (h.node nid).children.length < 2
        · have h2 : ¬ 2 ≤ (h.node nid).children.length := by omega
          simp [sortH, hs, hc, hc1, hc2, hl, h2]
        · have h2 : 2 ≤ (h.node nid).children.length := by omega
          by_cases hty : sameTypes ((h.node nid).children.map (cellH h col.toNat)) = false
          · simp [sortH, hs, hc, hc1, hc2, hl, h2, hty]
          · cases hm : matchComparator (ms ++ [matchCmp])
                (cell0 h col.toNat (h.node nid).children) with
            | none => simp [sortH, hs, hc, hc1, hc2, hl, h2, hty, hm]
            | some cmp => simp [sortH, hs, hc, hc1, hc2, hl, h2, hty, hm]
  · intro sid hs h0 hcol hlen
    have hc : ¬ (col < 0 ∨ ((h.schemaAt sid).count : Int) ≤ col) := by omega
    simp [sortH, hs, hc, hlen]

theorem c6_witness :
    (∃ e, sortH heapC8 0 2 false [] = .error e) ∧
    sortH heapC1 0 0 false [] = .ok heapC1 :=
  ⟨(c6_sort_error_conditions heapC8 0 2 false []).1.mpr
      (Or.inr ⟨0, rfl, Or.inr (Or.inl (by decide))⟩),
   (c6_sort_error_conditions heapC1 0 0 false []).2 0 rfl
      (by decide) (by decide) (by decide)⟩

theorem insGo_all_true {α} (p : α → α → Bool) (x : α) (l : List α)
    (hall : ∀ e ∈ l, p x e = true) : insGo p x l = x :: l := by
  unfold insGo
  dsimp only
  rw [List.takeWhile_eq_self_iff.mpr (by intro e he; exact hall e (List.mem_reverse.mp he)),
      List.dropWhile_eq_nil_iff.mpr (by intro e he; exact hall e (List.mem_reverse.mp he))]
  simp

theorem insertionSortGo_all_true {α} (p : α → α → Bool) :
    ∀ (l acc : List α), (∀ a ∈ l, ∀ b ∈ acc, p a b = true) →
    (∀ a ∈ l, ∀ b ∈ l, p a b = true) →
    List.foldl (fun acc x => insGo p x acc) acc l = l.reverse ++ acc := by
  intro l
  induction l with
  | nil => intro acc _ _; rfl
  | cons x t ih =>
    intro acc hacc hl
    rw [List.foldl_cons, insGo_all_true p x acc (hacc x (by simp))]
    rw [ih (x :: acc) ?_ ?_]
    · simp
    · intro a ha b hb
      cases List.mem_cons.mp hb with
      | inl he => exact he ▸ hl a (by simp [ha]) x (by simp)
      | inr hb' => exact hacc a (by simp [ha]) b hb'
    · intro a ha b hb
      exact hl a (by simp [ha]) b (by simp [hb])

/-- C7 (amended): the descending option inverts the comparator pointwise (the
sort predicate becomes the negation of the comparator on the two cells), and
because that predicate is non strict on ties, children whose keys compare
equal do not keep their order: a run of children whose cells are all tied
comes out reversed.  The length bound keeps the statement in the regime where
Go sort.Stable is exactly an insertion sort. -/
theorem c7_descending_ties_reversed (h : Heap) (nid sid : Nat) (col : Int)
    (ms : List (Val → Option (Val → Val → Bool))) (cmp : Val → Val → Bool)
    (hs : (h.node nid).schema = some sid)
    (hc0 : ¬ col < 0) (hc1 : col < ((h.schemaAt sid).count : Int))
    (hlen2 : 2 ≤ (h.node nid).children.length)
    (hblock : (h.node nid).children.length ≤ 20)
    (hsame : ¬ sameTypes ((h.node nid).children.map (cellH h col.toNat)) = false)
    (hcmp : matchComparator (ms ++ [matchCmp])
      (cell0 h col.toNat (h.node nid).children) = some cmp)
    (hties : ∀ a ∈ (h.node nid).children, ∀ b ∈ (h.node nid).children,
      cmp (cellH h col.toNat a) (cellH h col.toNat b) = false) :
    sortH h nid col true ms =
      .ok (h.setNode nid
        { h.node nid with children := (h.node nid).children.reverse }) := by
  have hc : ¬ (col < 0 ∨ ((h.schemaAt sid).count : Int) ≤ col) := by omega
  have hl : ¬ (h.node nid).children.length < 2 := by omega
  have hrev : insertionSortGo
      (fun i j => !(cmp (cellH h col.toNat i) (cellH h col.toNat j)))
      (h.node nid).children = (h.node nid).children.reverse := by
    unfold insertionSortGo
    rw [insertionSortGo_all_true _ (h.node nid).children [] (by intro a _ b hb; cases hb) ?_]
    · simp
    · intro a ha b hb
      rw [hties a ha b hb]
      rfl
  simp [sortH, hs, hc, hl, hsame, hcmp, hrev]

theorem c7_witness :
    sortH heapC7 0 0 true [] =
      .ok (heapC7.setNode 0
        { heapC7.node 0 with children := (heapC7.node 0).children.reverse }) :=
  c7_descending_ties_reversed heapC7 0 0 0 [] cmpIntFn rfl
    (by decide) (by decide) (by decide) (by decide) (by decide) rfl
    (by decide)

/-- C7 counterexample: two children whose column-0 keys are both 712 are in
order [1, 2] before the descending sort and in order [2, 1] after it, so equal
keys do not keep their original relative order. -/
theorem c7_counterexample :
    cellH heapC7 0 1 = .vint 712 ∧ cellH heapC7 0 2 = .vint 712 ∧
    (heapC7.node 0).children = [1, 2] ∧
    (sortH heapC7 0 0 true []).map (fun h' => (h'.node 0).children) = .ok [2, 1] :=
  ⟨rfl, rfl, rfl, rfl⟩

/-- C8: sorting the pushed child rows (5, b), (3, a), (5, a) on column 0
ascending yields (3, a), (5, b), (5, a): the two rows with key 5 keep their
original relative order. -/
theorem c8_ascending_stability :
    ((heapC8.node 0).children.map (fun c => ((heapC8.node c).row.getD default).fields) =
      [[.vint 5, .vstr "b"], [.vint 3, .vstr "a"], [.vint 5, .vstr "a"]]) ∧
    (sortH heapC8 0 0 false []).map
        (fun h' => (h'.node 0).children.map (fun c => ((h'.node c).row.getD default).fields)) =
      .ok [[.vint 3, .vstr "a"], [.vint 5, .vstr "b"], [.vint 5, .vstr "a"]] :=
  ⟨rfl, rfl⟩

/-- C5 counterexample: the tree of rows (1, ab) and (22, c) renders with the
default right alignment as " 1 ab" and "22  c", not as the claimed left
aligned "1  ab" and "22 c". -/
theorem c5_counterexample :
    runNodeH 10 heapC5 " " "\n" 0 = " 1 ab\n22  c\n" ∧
    runNodeH 10 heapC5 " " "\n" 0 ≠ "1  ab\n22 c\n" :=
  ⟨rfl, by decide⟩

/-- C5 (amended): with the default single space separator and newline
terminator the tree renders as " 1 ab" then "22  c": each column width is the
maximum observed length 2 and fields are right aligned inside their columns,
the padding the default (non left aligned) columns produce. -/
theorem c5_round_trip_rendering :
    runNodeH 10 heapC5 " " "\n" 0 = " 1 ab\n22  c\n" ∧
    (heapC5.schemaAt 0).cols.map (fun c => c.width) = [2, 2] ∧
    (heapC5.schemaAt 0).cols.map (fun c => c.fixed) = [false, false] :=
  ⟨rfl, rfl, rfl⟩

/-- C9: with rows a, b, c pushed under the root and d, e pushed under the node
of b, the walk visits the children in directory order a, b, d, e, c, the
rendered output is exactly those rows in that order, and the root (which
carries no row) contributes nothing. -/
theorem c9_directory_order :
    (heapC9.node 0).row = none ∧ (heapC9.node 0).parent = none ∧
    ((heapC9.node 1).row.getD default).fields = [.vstr "a"] ∧
    ((heapC9.node 2).row.getD default).fields = [.vstr "b"] ∧
    ((heapC9.node 3).row.getD default).fields = [.vstr "c"] ∧
    ((heapC9.node 4).row.getD default).fields = [.vstr "d"] ∧
    ((heapC9.node 5).row.getD default).fields = [.vstr "e"] ∧
    (heapC9.node 2).children = [4, 5] ∧
    walkIds 10 heapC9 0 = [1, 2, 4, 5, 3] ∧
    runNodeH 10 heapC9 " " "\n" 0 = "a\nb\nd\ne\nc\n" :=
  ⟨rfl, rfl, rfl, rfl, rfl, rfl, rfl, rfl, rfl, rfl⟩

end Pprint
